import Mathlib

/-!
Verification of the `api` and `branches` layers of the ranobelib-downloader
repository, via a shallow embedding of the relevant Python functions
(`src/api.py`, `src/branches.py`) into Lean.

Conventions of the embedding:
* Python machine values that flow through the modelled code paths are either
  ints or strings; they are modelled by `PyPrim`.
* Fallible Python code (code that can raise) is modelled in `Except`;
  a `TypeError` raised by an `int`/`str` comparison is `PyErr.typeError`.
* `dict.get(key, default)` on optional record fields is modelled with
  `Option` fields plus `Option.getD`.
* Clock values (`time.monotonic()`) are modelled as rationals; code is taken
  to execute instantaneously except for the explicit `sleep` calls, which
  advance the clock by the slept amount.
-/

/-- A Python primitive value (the values that occur in the fields read by the
embedded code paths: ints and strings). -/
inductive PyPrim where
  | int (n : Int)
  | str (s : String)
deriving DecidableEq, Repr

/-- Python `str(v)` for the primitive values of `PyPrim`. -/
def pyStr : PyPrim → String
  | .int n => toString n
  | .str s => s

/-- Split a character list at every separator character (Python
`str.split(sep)` / `re.split` on a character class: empty fields are kept,
the empty input gives one empty field). Defined structurally so that it
evaluates by kernel reduction (core `String.split` does not). -/
def splitChars (p : Char → Bool) : List Char → List (List Char)
  | [] => [[]]
  | c :: cs =>
    let r := splitChars p cs
    if p c then [] :: r
    else
      match r with
      | [] => [[c]]
      | g :: gs => (c :: g) :: gs

/-- Python `s.split` on a character predicate, over Lean strings. -/
def pySplit (s : String) (p : Char → Bool) : List String :=
  (splitChars p s.toList).map (fun cs => String.mk cs)

/-- Value of a digit list, most significant first. -/
def digitsToNat : List Char → Nat → Nat
  | [], acc => acc
  | c :: cs, acc => digitsToNat cs (acc * 10 + (c.toNat - '0'.toNat))

/-- Python `int(s)` over a character list: strip surrounding whitespace,
accept an optional sign followed by one or more digits, otherwise raise
`ValueError` (modelled as `none`). (Digit-group underscores cannot occur in
the inputs fed to this: they were split on `_`.) -/
def pyIntOfChars? (cs : List Char) : Option Int :=
  let t := ((cs.dropWhile Char.isWhitespace).reverse.dropWhile Char.isWhitespace).reverse
  let signed : Bool × List Char :=
    match t with
    | '-' :: ds => (true, ds)
    | '+' :: ds => (false, ds)
    | ds => (false, ds)
  if signed.2 ≠ [] && signed.2.all Char.isDigit then
    let v : Int := Int.ofNat (digitsToNat signed.2 0)
    some (if signed.1 then -v else v)
  else none

/-- Python `int(s)` on strings. -/
def pyIntOfString? (s : String) : Option Int :=
  pyIntOfChars? s.toList

/-- Shallow embedding of `branches._parse_chapter_number_for_sort`:
`re.split(r"[.\-_]", str(number_str))`, each part `int(part)` when parsable,
the part itself otherwise; the resulting Python tuple is a `List PyPrim`. -/
def parseChapterNumberForSort (numberStr : String) : List PyPrim :=
  ((pySplit numberStr (fun c => c == '.' || c == '-' || c == '_')).map
    (fun part =>
      match pyIntOfString? part with
      | some n => PyPrim.int n
      | none => PyPrim.str part))

/-- Errors raised by the embedded Python code paths. -/
inductive PyErr where
  /-- `TypeError` from comparing an `int` with a `str` via `<`. -/
  | typeError
deriving DecidableEq, Repr

/-- Python `a < b` on primitives: defined within `int` and within `str`
(strings compare lexicographically), `TypeError` across the two. -/
def pyPrimLt : PyPrim → PyPrim → Except PyErr Bool
  | .int a, .int b => .ok (decide (a < b))
  | .str a, .str b => .ok (decide (a < b))
  | _, _ => .error .typeError

/-- Python `a == b` on primitives: `False` across types, never raises. -/
def pyPrimEqb : PyPrim → PyPrim → Bool
  | .int a, .int b => a == b
  | .str a, .str b => a == b
  | _, _ => false

/-- Python tuple `<`: skip `==`-equal prefixes (cross-type `==` is `False`,
not an error), compare the first non-equal pair with `<`, shorter tuple wins
on exhaustion. -/
def pyTupleLt : List PyPrim → List PyPrim → Except PyErr Bool
  | [], [] => .ok false
  | [], _ :: _ => .ok true
  | _ :: _, [] => .ok false
  | a :: as, b :: bs => if pyPrimEqb a b then pyTupleLt as bs else pyPrimLt a b

/-- Insert `x` into the already-sorted `acc`, before the first element `y`
with `lt x y` (so after all elements `≤ x`: stable for equal keys). -/
def pyInsert (lt : α → α → Except PyErr Bool) (x : α) : List α → Except PyErr (List α)
  | [] => .ok [x]
  | y :: ys => do
    let b ← lt x y
    if b then pure (x :: y :: ys)
    else do
      let r ← pyInsert lt x ys
      pure (y :: r)

def pySortAux (lt : α → α → Except PyErr Bool) : List α → List α → Except PyErr (List α)
  | acc, [] => .ok acc
  | acc, x :: xs => do
    let acc' ← pyInsert lt x acc
    pySortAux lt acc' xs

/-- Stable ascending sort in the `Except` monad, modelling Python's
`list.sort`/`sorted` with a key function: equal elements keep their input
order, and a `TypeError` raised by a key comparison aborts the sort.
(On a two-element list this performs exactly Python's single comparison
`lt l[1] l[0]`.) -/
def pySort (lt : α → α → Except PyErr Bool) (l : List α) : Except PyErr (List α) :=
  pySortAux lt [] l

instance {ε α : Type} [DecidableEq ε] [DecidableEq α] : DecidableEq (Except ε α) := fun a b =>
  match a, b with
  | .ok x, .ok y =>
    if h : x = y then isTrue (by rw [h]) else isFalse (fun hh => h (Except.ok.inj hh))
  | .error x, .error y =>
    if h : x = y then isTrue (by rw [h]) else isFalse (fun hh => h (Except.error.inj hh))
  | .ok _, .error _ => isFalse (fun hh => Except.noConfusion hh)
  | .error _, .ok _ => isFalse (fun hh => Except.noConfusion hh)

/-! ## Chapter and branch records (`branches.py`, `api.py`) -/

/-- The `details` dict of a novel-info team (`branches.py` lines 125-135):
`details.get("branch_id")` and `details.get("is_active", False)` are the
fields read; each is read with a default, so each is an `Option`. -/
structure TeamDetails where
  branch_id : Option PyPrim := Option.none
  is_active : Option Bool := Option.none
deriving DecidableEq, Repr

/-- A team dict as read by `branches.py`: `team.get("id", 0)`,
`team.get("name", "Неизвестный")` and `team.get("details", {}) or {}` (so a
missing or `None` details value collapses to the empty dict, here
`Option.none`). Name values, when present, are the name strings of the
data model. -/
structure Team where
  id : Option Int := Option.none
  name : Option String := Option.none
  details : Option TeamDetails := Option.none
deriving DecidableEq, Repr

/-- One element of a chapter's `branches` list. The code tolerates three
shapes (`branches.py` lines 76-82): a dict (whose `branch_id`,
`moderation.id`, `teams` and `team` fields we model; `moderation`, when
present, is a dict and `moderation_id` holds its `id` field if any;
`teams` is the list read by `_get_teams_by_branch` and `team` its
single-team fallback dict), a bare non-`None` scalar (stringified
wholesale), or `None`. -/
inductive Branch where
  | dict (branch_id : Option PyPrim) (moderation_id : Option (Option PyPrim))
      (teams : Option (List Team)) (team : Option Team)
  | prim (p : PyPrim)
  | none
deriving DecidableEq, Repr

/-- The novel-info dict as read by `_get_base_branches_from_novel_info`:
only `novel_info.get("teams", [])` is consulted. -/
structure NovelInfo where
  teams : Option (List Team) := Option.none
deriving DecidableEq, Repr

/-- A chapter record as consumed by the embedded code: every field is read
with `dict.get` and a default, so each is an `Option`. -/
structure Chapter where
  volume : Option PyPrim := Option.none
  number : Option PyPrim := Option.none
  index : Option Int := Option.none
  branches : Option (List Branch) := Option.none
deriving DecidableEq, Repr

/-- `str(chapter.get("volume", "0"))`. -/
def chapterVolumeStr (c : Chapter) : String := pyStr (c.volume.getD (PyPrim.str "0"))

/-- `str(chapter.get("number", "0"))` (also the argument of the sort-key
parse, which itself applies `str`). -/
def chapterNumberStr (c : Chapter) : String := pyStr (c.number.getD (PyPrim.str "0"))

/-- The `(str(volume), str(number))` key used by `get_default_branch_chapters`. -/
def chapterKey (c : Chapter) : String × String := (chapterVolumeStr c, chapterNumberStr c)

/-- `chapter.get("branches", [])`. -/
def chapterBranches (c : Chapter) : List Branch := c.branches.getD []

/-- The branch-id string of `get_default_branch_chapters` lines 77-82:
`str(branch.get("branch_id"))` with `None`/missing replaced by `"0"` for a
dict, `str(branch)` for a bare non-`None` value, `"0"` for `None`. -/
def branchIdStr : Branch → String
  | .dict bid _ _ _ =>
    match bid with
    | some v => pyStr v
    | Option.none => "0"
  | .prim p => pyStr p
  | .none => "0"

/-- Comparison key `x.get("index", 0)` (source index sort). -/
def chapterIndexLt (a b : Chapter) : Except PyErr Bool :=
  .ok (decide (a.index.getD 0 < b.index.getD 0))

/-- Comparison of the `_parse_chapter_number_for_sort` keys. -/
def chapterNumberLt (a b : Chapter) : Except PyErr Bool :=
  pyTupleLt (parseChapterNumberForSort (chapterNumberStr a))
    (parseChapterNumberForSort (chapterNumberStr b))

/-- A value of the per-key ordered dict `branch_id → entry`:
`{"chapter": chapter, "branch": branch}`. -/
structure Entry where
  chapter : Chapter
  branch : Branch
deriving DecidableEq, Repr

/-- `chapter_branch_map`: a `defaultdict(dict)` keyed by `(volume, number)`;
each value is an insertion-ordered dict `branch_id → entry`, modelled as an
association list (first-inserted first). -/
def ChapterBranchMap : Type := String × String → List (String × Entry)

/-- One step of the map-building loop (`branches.py` lines 76-88): insert
`(branch_id_str, entry)` at the chapter's key unless that id is already
present there. -/
def addOneBranch (c : Chapter) (m : ChapterBranchMap) (b : Branch) : ChapterBranchMap :=
  let bid := branchIdStr b
  let key := chapterKey c
  if (m key).any (fun p => p.1 == bid) then m
  else fun k => if k = key then m key ++ [(bid, ⟨c, b⟩)] else m k

/-- Process one chapter of the map-building loop: fold `addOneBranch` over
its branch list. -/
def addChapterBranches (m : ChapterBranchMap) (c : Chapter) : ChapterBranchMap :=
  (chapterBranches c).foldl (addOneBranch c) m

def buildChapterBranchMap (chapters : List Chapter) : ChapterBranchMap :=
  chapters.foldl addChapterBranches (fun _ => [])

/-- `unique_chapter_keys`: keys in first-seen order, deduplicated via the
`seen_keys` set (`branches.py` lines 70-74). -/
def uniqueKeysAux (seen : List (String × String)) : List Chapter → List (String × String)
  | [] => []
  | c :: cs =>
    let k := chapterKey c
    if k ∈ seen then uniqueKeysAux seen cs
    else k :: uniqueKeysAux (k :: seen) cs

def uniqueChapterKeys (chapters : List Chapter) : List (String × String) :=
  uniqueKeysAux [] chapters

/-- `prioritized_branch_id in available_branches` /
`available_branches[prioritized_branch_id]` on the ordered dict. -/
def lookupBranch (l : List (String × Entry)) (bid : String) : Option Entry :=
  (l.find? (fun p => p.1 == bid)).map (fun p => p.2)

/-- The greedy selection loop of `get_default_branch_chapters` (lines
90-113), written as recursion over the list `pending` of not-yet-selected
keys in `unique_chapter_keys` order (`selected_chapter_keys` membership
becomes removal from `pending`). One iteration: find the first pending key
with a non-empty branch dict; its first-inserted branch id is the
prioritized id (`next(iter(...))`); if that id is the empty string the
Python guard `if not first_unselected_key or not prioritized_branch_id`
sees a falsy string and breaks; otherwise every pending key whose dict
contains the prioritized id contributes its entry (in pending order) and is
selected. `fuel` only bounds the recursion; `fuel = pending.length`
always suffices because the found key itself is always selected. -/
def selectLoopFuel (m : ChapterBranchMap) : Nat → List (String × String) → List Entry
  | 0, _ => []
  | fuel + 1, pending =>
    match pending.find? (fun k => !(m k).isEmpty) with
    | Option.none => []
    | some k =>
      match (m k).head? with
      | Option.none => []
      | some (pid, _) =>
        if pid = "" then []
        else
          (pending.filterMap (fun k2 => lookupBranch (m k2) pid)) ++
            selectLoopFuel m fuel
              (pending.filter (fun k2 => (lookupBranch (m k2) pid).isNone))

def selectLoop (m : ChapterBranchMap) (pending : List (String × String)) : List Entry :=
  selectLoopFuel m pending.length pending

/-- Shallow embedding of `branches.get_default_branch_chapters`: sort by
source index, stably re-sort by the parsed `number` key, build the
key → branch map and the unique key list, run the greedy selection, and
re-sort the selected entries by the same two keys. A `TypeError` raised by
any of the four sorts aborts the call. -/
def getDefaultBranchChapters (chaptersData : List Chapter) : Except PyErr (List Entry) := do
  let s1 ← pySort chapterIndexLt chaptersData
  let s2 ← pySort chapterNumberLt s1
  let m := buildChapterBranchMap s2
  let keys := uniqueChapterKeys s2
  let finalList := selectLoop m keys
  let f1 ← pySort (fun a b => chapterIndexLt a.chapter b.chapter) finalList
  let f2 ← pySort (fun a b => chapterNumberLt a.chapter b.chapter) f1
  pure f2

/-- The moderation test of `api.get_novel_chapters` (lines 118-123):
`any(isinstance(branch, dict) and branch.get("moderation", {}).get("id") == 0
for branch in branches)`. -/
def isOnModeration (c : Chapter) : Bool :=
  (chapterBranches c).any (fun b =>
    match b with
    | .dict _ m _ _ =>
      match m with
      | some (some idv) => pyPrimEqb idv (PyPrim.int 0)
      | _ => false
    | _ => false)

/-- Shallow embedding of the chapter filter in `api.get_novel_chapters`:
keep exactly the chapters that are not on moderation, in order. -/
def getNovelChaptersFilter (chapters : List Chapter) : List Chapter :=
  chapters.filter (fun c => !(isOnModeration c))

/-! ## Branch aggregation (`branches.py` `get_formatted_branches_with_teams`)

Python dicts keyed by branch-id strings are modelled as association lists in
insertion order (keys unique by construction of the inserting helpers); the
`set` of team names per branch is an insertion-ordered duplicate-free list
(only its membership and its sorted image are consumed). -/

/-- Lookup `d.get(k)` on an association list. -/
def alGet? {β : Type} (l : List (String × β)) (k : String) : Option β :=
  (l.find? (fun p => p.1 == k)).map (fun p => p.2)

/-- Membership `k in d` on an association list. -/
def alHas {β : Type} (l : List (String × β)) (k : String) : Bool :=
  l.any (fun p => p.1 == k)

/-- The `team_info` dict built at `branches.py` lines 132-136: every field
read with a default. -/
structure TeamInfo where
  id : Int
  name : String
  is_active : Bool
deriving DecidableEq, Repr

/-- A value of the `branches` dict of `_get_base_branches_from_novel_info`:
`{"id": branch_id, "teams": [...], "active_teams": [...]}`. -/
structure BranchInfo where
  id : String
  teams : List TeamInfo
  active_teams : List TeamInfo
deriving DecidableEq, Repr

/-- Lines 126-127: `str(details.get("branch_id"))` with a `None`/missing id
replaced by `"0"`, where `details = team.get("details", {}) or {}`. -/
def teamBranchIdStr (t : Team) : String :=
  match (t.details.getD ⟨Option.none, Option.none⟩).branch_id with
  | some v => pyStr v
  | Option.none => "0"

/-- One iteration of the loop at `branches.py` lines 124-139: ensure the
branch-id key exists, then append the built `team_info` to its `teams` and,
when `is_active`, to its `active_teams`. -/
def addNovelTeam (branches : List (String × BranchInfo)) (t : Team) :
    List (String × BranchInfo) :=
  let bid := teamBranchIdStr t
  let ti : TeamInfo := ⟨t.id.getD 0, t.name.getD "Неизвестный",
    (t.details.getD ⟨Option.none, Option.none⟩).is_active.getD false⟩
  let base := if alHas branches bid then branches else branches ++ [(bid, ⟨bid, [], []⟩)]
  base.map (fun p => if p.1 = bid then
    (p.1, ⟨p.2.id, p.2.teams ++ [ti],
      p.2.active_teams ++ (if ti.is_active then [ti] else [])⟩)
    else p)

/-- Shallow embedding of `_get_base_branches_from_novel_info` (lines
121-143): fold the novel teams, then ensure the `"0"` key. -/
def getBaseBranchesFromNovelInfo (ni : NovelInfo) : List (String × BranchInfo) :=
  let branches := (ni.teams.getD []).foldl addNovelTeam []
  if alHas branches "0" then branches else branches ++ [("0", ⟨"0", [], []⟩)]

/-- Increment of the `defaultdict(int)` of `_get_chapter_counts_by_branch`:
a first use inserts the key at the end with count 1. -/
def bumpCount : List (String × Nat) → String → List (String × Nat)
  | [], k => [(k, 1)]
  | p :: rest, k => if p.1 = k then (p.1, p.2 + 1) :: rest else p :: bumpCount rest k

/-- Shallow embedding of `_get_chapter_counts_by_branch` (lines 146-158);
its branch-id normalisation is the same `branchIdStr` logic. -/
def getChapterCountsByBranch (chaptersData : List Chapter) : List (String × Nat) :=
  chaptersData.foldl (fun counts c =>
    (chapterBranches c).foldl (fun counts2 b => bumpCount counts2 (branchIdStr b)) counts) []

/-- `teams[branch_id].add(name)` on the insertion-ordered set model of
`_get_teams_by_branch`: a first use of the key inserts it at the end. -/
def addTeamName : List (String × List String) → String → String → List (String × List String)
  | [], k, nm => [(k, [nm])]
  | p :: rest, k, nm =>
    if p.1 = k then (p.1, if nm ∈ p.2 then p.2 else p.2 ++ [nm]) :: rest
    else p :: addTeamName rest k nm

/-- One branch of the `_get_teams_by_branch` loop (lines 165-180): non-dict
branches are skipped; a non-empty `teams` list contributes each
`team.get("name", "Неизвестный")`; otherwise the `team` fallback dict
contributes its name when that name is truthy (so a missing, `None`-valued
or empty name falls back to the sentinel). -/
def addBranchTeams (tm : List (String × List String)) (b : Branch) :
    List (String × List String) :=
  match b with
  | .dict _ _ bteams bteam =>
    let bid := branchIdStr b
    let teamsList := bteams.getD []
    if teamsList.isEmpty then
      match bteam with
      | some t =>
        match t.name with
        | some nm => if nm = "" then addTeamName tm bid "Неизвестный" else addTeamName tm bid nm
        | Option.none => addTeamName tm bid "Неизвестный"
      | Option.none => addTeamName tm bid "Неизвестный"
    else
      teamsList.foldl (fun tm2 t => addTeamName tm2 bid (t.name.getD "Неизвестный")) tm
  | _ => tm

/-- Shallow embedding of `_get_teams_by_branch` (lines 161-181). -/
def getTeamsByBranch (chaptersData : List Chapter) : List (String × List String) :=
  chaptersData.foldl (fun tm c => (chapterBranches c).foldl addBranchTeams tm) []

/-- Python `min(teams, key=lambda t: t.get("id", 0))`: the first element
with the minimal id (ties keep the earlier element, as `min` does). -/
def minIdTeam (t0 : TeamInfo) (ts : List TeamInfo) : TeamInfo :=
  ts.foldl (fun best t => if t.id < best.id then t else best) t0

/-- Shallow embedding of `_format_branch_name` (lines 184-193); its
`branch_id` parameter is never read by the body and is omitted. -/
def formatBranchName (bi : BranchInfo) : String :=
  if !bi.active_teams.isEmpty then
    String.intercalate ", " (bi.active_teams.map (fun t => t.name))
  else
    match bi.teams with
    | [] => "Неизвестный"
    | t :: ts => (minIdTeam t ts).name

/-- Python string comparison, routed through the tuple machinery so that
the `sorted(list(all_team_names))` call is a fallible operation of the
same kind as the chapter-number sorts (it succeeds on every pair of
strings). -/
def pyStrLt (a b : String) : Except PyErr Bool := pyPrimLt (PyPrim.str a) (PyPrim.str b)

/-- One value of the `formatted_branches` result dict (lines 27-32). -/
structure FormattedBranch where
  id : String
  name : String
  chapter_count : Nat
  team_names : List String
deriving DecidableEq, Repr

/-- First-seen insertion for the union `set(base) | set(counts)` of branch
ids. CPython iterates that set in an unspecified hash order; the embedding
fixes first-seen order, which leaves each key's computed value (the only
thing the claims consume) unchanged. -/
def addDistinct (l : List String) (x : String) : List String :=
  if x ∈ l then l else l ++ [x]

/-- The body of the `for branch_id in all_branch_ids` loop (lines 20-32):
skip ids with no chapters, otherwise build the formatted entry, sorting the
branch's team-name set. -/
def formatOneBranch (baseBranches : List (String × BranchInfo))
    (chapterCounts : List (String × Nat)) (teamsByBranch : List (String × List String))
    (acc : List (String × FormattedBranch)) (bid : String) :
    Except PyErr (List (String × FormattedBranch)) :=
  if (alGet? chapterCounts bid).getD 0 = 0 then pure acc
  else do
    let branchInfo := (alGet? baseBranches bid).getD ⟨bid, [], []⟩
    let sortedNames ← pySort pyStrLt ((alGet? teamsByBranch bid).getD [])
    pure (acc ++ [(bid, ⟨bid, formatBranchName branchInfo,
      (alGet? chapterCounts bid).getD 0, sortedNames⟩)])

/-- Shallow embedding of `get_formatted_branches_with_teams` (`branches.py`
lines 9-34): aggregate base branches, per-branch chapter counts and
per-branch team-name sets, then format every branch id that has chapters.
The per-id sorted name list is order-independent (the sorted image of a
set), so the embedding's first-seen id order only fixes the result dict's
iteration order, which nothing downstream reads. -/
def getFormattedBranchesWithTeams (ni : NovelInfo) (chaptersData : List Chapter) :
    Except PyErr (List (String × FormattedBranch)) :=
  let baseBranches := getBaseBranchesFromNovelInfo ni
  let chapterCounts := getChapterCountsByBranch chaptersData
  let teamsByBranch := getTeamsByBranch chaptersData
  let allBranchIds := ((baseBranches.map (fun p => p.1)) ++
    (chapterCounts.map (fun p => p.1))).foldl addDistinct []
  allBranchIds.foldlM (formatOneBranch baseBranches chapterCounts teamsByBranch) []

/-! ## Request core (`api.py`) -/

def RETRY_DELAYS : List Nat := [3, 3, 30, 30, 30]

/-- Outcome of a (possibly retried) request: the returned value or raised
error, the number of attempts performed, and the delays actually slept
between attempts. -/
structure RetryResult (ε ρ : Type) where
  outcome : Except ε ρ
  attempts : Nat
  sleeps : List Nat
deriving DecidableEq, Repr

/-- The loop of `_retry_request` over the remaining delays. `f i` is the
outcome of attempt `i` of the wrapped call (`i` counts attempts already
made). A success returns; a failure on the last iteration re-raises the
caught exception; otherwise the delay of the current iteration is slept
(≥30 s delays additionally print a warning, which has no semantic effect)
and the loop continues. The `[]` case is Python's `return {}` after the
`for`, reachable only with an empty delay schedule. -/
def retryLoop (f : Nat → Except ε ρ) (emptyRes : ρ) :
    List Nat → Nat → List Nat → RetryResult ε ρ
  | [], i, sleeps => ⟨Except.ok emptyRes, i, sleeps⟩
  | d :: rest, i, sleeps =>
    match f i with
    | Except.ok r => ⟨Except.ok r, i + 1, sleeps⟩
    | Except.error e =>
      if rest.isEmpty then ⟨Except.error e, i + 1, sleeps⟩
      else retryLoop f emptyRes rest (i + 1) (sleeps ++ [d])

/-- Shallow embedding of `api._retry_request`: run the attempts `f` under
the fixed schedule `RETRY_DELAYS`. -/
def retryRequest (f : Nat → Except ε ρ) (emptyRes : ρ) : RetryResult ε ρ :=
  retryLoop f emptyRes RETRY_DELAYS 0 []

/-- Shallow embedding of the result behaviour of `api.make_request` (lines
72-78): with `retry=False` a single attempt whose `RequestException` is
swallowed into the empty result; with `retry=True` the `_retry_request`
schedule. (The preceding `wait_for_rate_limit` call only delays and is
modelled separately; cancellation is out of scope here.) -/
def makeRequest (f : Nat → Except ε ρ) (emptyRes : ρ) (retry : Bool) : RetryResult ε ρ :=
  if !retry then
    match f 0 with
    | Except.ok r => ⟨Except.ok r, 1, []⟩
    | Except.error _ => ⟨Except.ok emptyRes, 1, []⟩
  else retryRequest f emptyRes

/-- An HTTP response whose transport succeeded: a status code, and `some
body` when `response.json()` decodes or `none` when it raises
`JSONDecodeError`. -/
structure HttpResponse (ρ : Type) where
  status : Nat
  body : Option ρ
deriving DecidableEq, Repr

/-- Exceptions `_perform_request` can raise past the transport level (both
are `requests.exceptions.RequestException` subclasses). -/
inductive PerformError where
  /-- `response.raise_for_status()` on a 4xx/5xx status. -/
  | httpError (status : Nat)
  /-- `response.json()` failed to decode (re-raised after logging). -/
  | jsonDecodeError
deriving DecidableEq, Repr

/-- Shallow embedding of `api._perform_request` given the first GET's
response `resp1` and the 401-refresh environment: `refresh = some (ok,
resp2)` models a registered `token_refresh_callback` returning `ok` with
`resp2` the re-issued GET's response; `none` models no callback. After the
optional refresh: status 404 returns the decoded body, or `{}` when the
body does not decode; any other 4xx/5xx raises `HTTPError`; otherwise the
decoded body is returned and a decode failure raises `JSONDecodeError`. -/
def performRequest (resp1 : HttpResponse ρ) (refresh : Option (Bool × HttpResponse ρ))
    (emptyRes : ρ) : Except PerformError ρ :=
  let resp :=
    match refresh with
    | some (true, resp2) => if resp1.status = 401 then resp2 else resp1
    | _ => resp1
  if resp.status = 404 then
    match resp.body with
    | some b => Except.ok b
    | Option.none => Except.ok emptyRes
  else if 400 ≤ resp.status ∧ resp.status < 600 then
    Except.error (.httpError resp.status)
  else
    match resp.body with
    | some b => Except.ok b
    | Option.none => Except.error .jsonDecodeError

/-! ## Rate limiter (`api.py` `wait_for_rate_limit`) -/

def REQUESTS_LIMIT : Nat := 90

def REQUESTS_PERIOD : ℚ := 60

/-- The limiter's mutable state: the `request_timestamps` deque (oldest
first) together with the current monotonic clock value. -/
structure RLState where
  stamps : List ℚ
  now : ℚ
deriving DecidableEq, Repr

/-- The purge loop: `while self.request_timestamps and
self.request_timestamps[0] < current_time - REQUESTS_PERIOD: popleft()`. -/
def purgeStamps (currentTime : ℚ) (stamps : List ℚ) : List ℚ :=
  stamps.dropWhile (fun s => decide (s < currentTime - REQUESTS_PERIOD))

/-- The `count >= limit` block of `wait_for_rate_limit` (lines 166-174):
sleep until the oldest timestamp would leave the window, re-read the clock
(under the instantaneous-execution convention the re-read `current_time`
equals the post-sleep clock), and re-purge. Returns the new clock value and
the re-purged deque. -/
def slotPhase (currentTime : ℚ) (stamps1 : List ℚ) : ℚ × List ℚ :=
  let waitForSlot := stamps1.headD 0 - (currentTime - REQUESTS_PERIOD)
  let now2 := if 0 < waitForSlot then currentTime + waitForSlot else currentTime
  (now2, purgeStamps now2 stamps1)

/-- The pacing block of `wait_for_rate_limit` (lines 176-181): if any
timestamps remain, sleep whatever remains of the fixed pacing interval
`REQUESTS_PERIOD / REQUESTS_LIMIT` after the newest timestamp. `t2` is both
the block's `current_time` and the clock (they coincide: the clock was
either just re-read in the `count >= limit` block or never advanced).
Returns the clock after the optional sleep. -/
def pacingPhase (t2 : ℚ) (stamps2 : List ℚ) : ℚ :=
  if stamps2.isEmpty then t2
  else
    let interval : ℚ := REQUESTS_PERIOD / (REQUESTS_LIMIT : ℚ)
    let nextAllowedTime := stamps2.getLast?.getD 0 + interval
    let waitTime := nextAllowedTime - t2
    if 0 < waitTime then t2 + waitTime else t2

/-- Shallow embedding of `wait_for_rate_limit`, under the convention that
code runs instantaneously and only `_interruptible_sleep` advances the
clock (so every `time.monotonic()` read returns the current `now`).
Returns the state after the call; the admission timestamp appended at the
end is the returned `now`. Mirrors the source step by step: purge; fast
path when `count + upcoming + 1 ≤ 90`; when `count ≥ 90`, the slot phase;
then the pacing phase; finally append a fresh timestamp. -/
def waitForRateLimit (upcoming : Nat) (st : RLState) : RLState :=
  let currentTime := st.now
  let stamps1 := purgeStamps currentTime st.stamps
  let n := stamps1.length
  if n + upcoming + 1 ≤ REQUESTS_LIMIT then
    { stamps := stamps1 ++ [currentTime], now := currentTime }
  else
    let s2 := if REQUESTS_LIMIT ≤ n then slotPhase currentTime stamps1 else (currentTime, stamps1)
    let now3 := pacingPhase s2.1 s2.2
    { stamps := s2.2 ++ [now3], now := now3 }

/-- Python `path.strip("/")`. -/
def pyStripSlashes (s : String) : String :=
  String.mk (((s.toList.dropWhile (fun c => c == '/')).reverse.dropWhile
    (fun c => c == '/')).reverse)

/-- Shallow embedding of `api.extract_slug_from_url` as a function of the
URL's parsed path (`urlparse(url).path`, computed by the Python standard
library): strip slashes, split on `/`, and return the third part exactly
when there are at least three parts and the first two are `"ru"` and
`"book"`. -/
def extractSlugFromPath (path : String) : Option String :=
  let pathParts := pySplit (pyStripSlashes path) (fun c => c == '/')
  match pathParts with
  | a :: b :: c :: _ => if a = "ru" && b = "book" then some c else Option.none
  | _ => Option.none

/-! ## Derived predicates and auxiliary state used by the claims -/

/-- The exclusion test written as the claim states it: the chapter has at
least one dict-shaped branch whose moderation id equals the integer 0. -/
def hasModerationZeroDictBranch (c : Chapter) : Bool :=
  (chapterBranches c).any (fun b =>
    match b with
    | .dict _ (some (some idv)) _ _ => decide (idv = PyPrim.int 0)
    | _ => false)

/-- The pacing wait as the spec's step 4 words prescribe it: an even pacing
interval `windowRemaining / max(1, ceiling - count)`, with `windowRemaining`
the remainder of the current window (time until the oldest recorded
timestamp exits it) and `count` the purged timestamp count; no time has yet
been spent in the call on this path, so the imposed wait would be the whole
interval (clamped at zero). Stated for comparison with the code's wait. -/
def specPacingWait (st : RLState) : ℚ :=
  let stamps1 := purgeStamps st.now st.stamps
  let windowRemaining := (stamps1.headD 0 + REQUESTS_PERIOD) - st.now
  max 0 (windowRemaining / (max 1 ((REQUESTS_LIMIT : ℚ) - stamps1.length)))

def PyPrim.isInt : PyPrim → Bool
  | .int _ => true
  | .str _ => false

/-- What `chapter_branch_map` entries look like: every stored pair at key
`k` carries a chapter of `l` whose key is `k` and whose (nonempty) branch
list contains the stored branch, with the stored id string the branch's. -/
def MapInv (l : List Chapter) (m : ChapterBranchMap) : Prop :=
  ∀ k p, p ∈ m k → p.2.chapter ∈ l ∧ chapterKey p.2.chapter = k ∧
    chapterBranches p.2.chapter ≠ [] ∧ p.1 = branchIdStr p.2.branch ∧
    p.2.branch ∈ chapterBranches p.2.chapter

/-- All dot/dash/underscore-split segments of the chapter's `number` string
parse as integers (the condition under which its sort key is an int-only
tuple). -/
def chapterAllIntSegments (c : Chapter) : Bool :=
  (parseChapterNumberForSort (chapterNumberStr c)).all PyPrim.isInt

/-- Number of selected entries whose chapter has key `k`. -/
def entryKeyCount (out : List Entry) (k : String × String) : Nat :=
  out.countP (fun e => decide (chapterKey e.chapter = k))

/-- The spec's numeric-aware sort example: ["2", "10", "1.5", "1"] sorts to
["1", "1.5", "2", "10"] under the parsed-number key. -/
theorem numericAwareSortExample :
    pySort (fun a b => pyTupleLt (parseChapterNumberForSort a) (parseChapterNumberForSort b))
      ["2", "10", "1.5", "1"] = .ok ["1", "1.5", "2", "10"] := by decide

/-- Mixed int/str number segments make the same sort raise `TypeError`. -/
theorem mixedNumberSortRaises :
    pySort (fun a b => pyTupleLt (parseChapterNumberForSort a) (parseChapterNumberForSort b))
      ["1", "a"] = .error .typeError := by decide

/-- **C2 (counterexample).** The claim predicts 6 total attempts with sleeps
`[3, 3, 30, 30, 30]`; on an always-failing transport the embedded
`_retry_request` performs exactly 5 attempts and sleeps `[3, 3, 30, 30]`
(the loop runs once per schedule entry and the last entry's delay is never
slept because the last failure re-raises instead). -/
theorem C2_counterexample :
    (retryRequest (fun _ => Except.error 0) (0 : Nat)).attempts = 5 ∧
    (retryRequest (fun _ => Except.error 0) (0 : Nat)).sleeps = [3, 3, 30, 30] ∧
    ¬ (retryRequest (fun _ => Except.error 0) (0 : Nat)).attempts = 6 := by
  refine ⟨rfl, rfl, ?_⟩
  intro h
  simp [retryRequest, retryLoop, RETRY_DELAYS] at h

/-- **C2 (amended).** When every attempt fails with a transport error, the
requester makes exactly 5 total attempts (1 initial + 4 retries), sleeping
`[3, 3, 30, 30]` between attempts, and then raises the error of the last
(5th) attempt. -/
theorem C2_amended {ε ρ : Type} (f : Nat → Except ε ρ) (errs : Nat → ε) (emptyRes : ρ)
    (h : ∀ i, f i = Except.error (errs i)) :
    retryRequest f emptyRes = ⟨Except.error (errs 4), 5, [3, 3, 30, 30]⟩ := by
  simp [retryRequest, retryLoop, RETRY_DELAYS, h]

theorem C2_amended_witness :
    (∀ i : Nat, (fun _ => Except.error 7 : Nat → Except Nat Nat) i = Except.error 7) ∧
    retryRequest (fun _ => Except.error 7 : Nat → Except Nat Nat) 0 =
      ⟨Except.error 7, 5, [3, 3, 30, 30]⟩ :=
  ⟨fun _ => rfl, C2_amended (fun _ => Except.error 7) (fun _ => 7) 0 (fun _ => rfl)⟩

/-- **C7.** With `retry=False`, a single failing attempt yields the empty
result `{}` as a successful outcome: exactly 1 attempt, no sleeps, no error
raised. -/
theorem C7_silent_empty {ε ρ : Type} (f : Nat → Except ε ρ) (e : ε) (emptyRes : ρ)
    (h : f 0 = Except.error e) :
    makeRequest f emptyRes false = ⟨Except.ok emptyRes, 1, []⟩ := by
  simp [makeRequest, h]

theorem C7_silent_empty_witness :
    ((fun _ => Except.error 3 : Nat → Except Nat Nat) 0 = Except.error 3) ∧
    makeRequest (fun _ => Except.error 3 : Nat → Except Nat Nat) 0 false =
      ⟨Except.ok 0, 1, []⟩ :=
  ⟨rfl, C7_silent_empty (fun _ => Except.error 3) 3 0 rfl⟩

/-- **C6.** A 404 response returns the decoded body when it decodes and the
empty result when it does not, as a successful outcome (no exception), and
the retrying wrapper therefore performs exactly one attempt. -/
theorem C6_not_found {ρ : Type} (resp : HttpResponse ρ) (refresh : Option (Bool × HttpResponse ρ))
    (emptyRes : ρ) (h : resp.status = 404) :
    performRequest resp refresh emptyRes = Except.ok (resp.body.getD emptyRes) ∧
    (retryRequest (fun _ => performRequest resp refresh emptyRes) emptyRes).outcome =
      Except.ok (resp.body.getD emptyRes) ∧
    (retryRequest (fun _ => performRequest resp refresh emptyRes) emptyRes).attempts = 1 := by
  have hp : performRequest resp refresh emptyRes = Except.ok (resp.body.getD emptyRes) := by
    unfold performRequest
    rcases refresh with _ | ⟨ok, resp2⟩
    · simp [h]
      cases resp.body <;> rfl
    · cases ok <;> simp [h] <;> cases resp.body <;> rfl
  refine ⟨hp, ?_, ?_⟩ <;> simp [retryRequest, retryLoop, RETRY_DELAYS, hp]

/-- The claim's concrete scenario: status 404 with body `{}` (an empty JSON
object) yields `{}` as a successful result after one attempt. -/
theorem C6_not_found_witness :
    ((⟨404, some []⟩ : HttpResponse (List (String × PyPrim))).status = 404) ∧
    performRequest (⟨404, some []⟩ : HttpResponse (List (String × PyPrim))) Option.none [] =
      Except.ok [] ∧
    (retryRequest
      (fun _ => performRequest (⟨404, some []⟩ : HttpResponse (List (String × PyPrim)))
        Option.none []) []).attempts = 1 := by
  have h := C6_not_found (⟨404, some []⟩ : HttpResponse (List (String × PyPrim))) Option.none []
    rfl
  exact ⟨rfl, h.1, h.2.2⟩

/-- **C10.** `extract_slug_from_url` returns the third segment of the
slash-stripped, slash-split URL path exactly when there are at least three
segments and the first two are `"ru"` and `"book"`, and `none` otherwise. -/
theorem C10_extract_slug (path : String) :
    extractSlugFromPath path =
      (let parts := pySplit (pyStripSlashes path) (fun c => c == '/')
       if 3 ≤ parts.length ∧ parts.take 2 = ["ru", "book"] then parts[2]? else Option.none) := by
  have key : ∀ parts : List String,
      (match parts with
       | a :: b :: c :: _ => if a = "ru" && b = "book" then some c else Option.none
       | _ => Option.none) =
      (if 3 ≤ parts.length ∧ parts.take 2 = ["ru", "book"] then parts[2]? else Option.none) := by
    intro parts
    rcases parts with _ | ⟨a, _ | ⟨b, _ | ⟨c, rest⟩⟩⟩ <;> simp
  exact key _


theorem isOnModeration_eq (c : Chapter) : isOnModeration c = hasModerationZeroDictBranch c := by
  unfold isOnModeration hasModerationZeroDictBranch
  congr 1
  funext b
  rcases b with ⟨bid, _ | ⟨_ | idv⟩, tms, tmf⟩ | p | _ <;> try rfl
  rcases idv with n | s <;> simp [pyPrimEqb]
  by_cases hn : n = 0 <;> simp [hn]

/-- **C9.** `get_novel_chapters` keeps exactly the chapters without a
dict-shaped branch whose moderation id equals 0 — i.e. it excludes exactly
the chapters that have one — and the survivors form a sublist of the input
(original order preserved; chapters with non-dict branches or no branches
are kept). -/
theorem C9_moderation_filter (chapters : List Chapter) :
    getNovelChaptersFilter chapters =
      chapters.filter (fun c => !(hasModerationZeroDictBranch c)) ∧
    (getNovelChaptersFilter chapters).Sublist chapters := by
  constructor
  · unfold getNovelChaptersFilter
    exact List.filter_congr (fun c _ => by rw [isOnModeration_eq])
  · exact List.filter_sublist _


/-- **C5 (counterexample).** State: one timestamp at 0, clock at 30, 89
upcoming requests — under the ceiling but bursty. The code imposes no wait
(the fixed pacing slot `0 + 60/90` is long past), while the claim's formula
`windowRemaining / max(1, ceiling - count)` prescribes `30/89 > 0`. -/
theorem C5_counterexample :
    (waitForRateLimit 89 ⟨[0], 30⟩).now - (30 : ℚ) = 0 ∧
    specPacingWait ⟨[0], 30⟩ = 30 / 89 ∧
    ¬ ((waitForRateLimit 89 ⟨[0], 30⟩).now - (30 : ℚ) = specPacingWait ⟨[0], 30⟩) := by
  with_unfolding_all decide

/-- **C5 (amended).** In the bursty branch (purged count under the ceiling
but `count + upcoming + 1` over it, timestamps nonempty) the wait imposed
before admitting is `max 0 ((newest timestamp + 60/90) - currentTime)`: the
fixed pacing interval `REQUESTS_PERIOD / REQUESTS_LIMIT` measured from the
newest recorded timestamp, less the time already elapsed since that
timestamp — not `windowRemaining / max(1, ceiling - count)`. -/
theorem C5_amended (upcoming : Nat) (st : RLState)
    (hburst : REQUESTS_LIMIT < (purgeStamps st.now st.stamps).length + upcoming + 1)
    (hunder : (purgeStamps st.now st.stamps).length < REQUESTS_LIMIT)
    (hne : purgeStamps st.now st.stamps ≠ []) :
    (waitForRateLimit upcoming st).now =
      st.now + max 0 (((purgeStamps st.now st.stamps).getLast?.getD 0 +
        REQUESTS_PERIOD / (REQUESTS_LIMIT : ℚ)) - st.now) := by
  simp only [waitForRateLimit]
  rw [if_neg (by omega)]
  rw [if_neg (by omega)]
  have hemp : (purgeStamps st.now st.stamps).isEmpty = false := by
    simpa using hne
  unfold pacingPhase
  simp only [hemp, Bool.false_eq_true, if_false]
  rcases le_or_lt ((purgeStamps st.now st.stamps).getLast?.getD 0 +
      REQUESTS_PERIOD / (REQUESTS_LIMIT : ℚ) - st.now) 0 with hle | hlt
  · rw [if_neg (not_lt.mpr hle), max_eq_left hle, add_zero]
  · rw [if_pos hlt, max_eq_right (le_of_lt hlt)]

theorem C5_amended_witness :
    (REQUESTS_LIMIT <
        (purgeStamps (⟨[0], 1/2⟩ : RLState).now (⟨[0], 1/2⟩ : RLState).stamps).length + 89 + 1 ∧
      (purgeStamps (⟨[0], 1/2⟩ : RLState).now (⟨[0], 1/2⟩ : RLState).stamps).length <
        REQUESTS_LIMIT ∧
      purgeStamps (⟨[0], 1/2⟩ : RLState).now (⟨[0], 1/2⟩ : RLState).stamps ≠ []) ∧
    (waitForRateLimit 89 ⟨[0], 1/2⟩).now =
      (⟨[0], 1/2⟩ : RLState).now + max 0
        (((purgeStamps (⟨[0], 1/2⟩ : RLState).now (⟨[0], 1/2⟩ : RLState).stamps).getLast?.getD 0 +
          REQUESTS_PERIOD / (REQUESTS_LIMIT : ℚ)) - (⟨[0], 1/2⟩ : RLState).now) :=
  ⟨⟨by with_unfolding_all decide, by with_unfolding_all decide, by with_unfolding_all decide⟩,
    C5_amended 89 ⟨[0], 1/2⟩ (by with_unfolding_all decide) (by with_unfolding_all decide)
      (by with_unfolding_all decide)⟩

/-! ## Sort success and permutation lemmas -/


@[simp] theorem okBind {ε α β : Type} (a : α) (f : α → Except ε β) :
    (Except.ok a : Except ε α) >>= f = f a := rfl

theorem pyTupleLt_ok_of_int (xs ys : List PyPrim) (hx : ∀ p ∈ xs, p.isInt = true)
    (hy : ∀ p ∈ ys, p.isInt = true) : ∃ b, pyTupleLt xs ys = Except.ok b := by
  induction xs generalizing ys with
  | nil => cases ys <;> exact ⟨_, rfl⟩
  | cons a as ih =>
    cases ys with
    | nil => exact ⟨_, rfl⟩
    | cons b bs =>
      have ha := hx a (List.mem_cons_self a as)
      have hb := hy b (List.mem_cons_self b bs)
      rcases a with n | s
      · rcases b with m | t
        · by_cases heq : pyPrimEqb (.int n) (.int m) = true
          · obtain ⟨r, hr⟩ := ih bs (fun p hp => hx p (List.mem_cons_of_mem _ hp))
              (fun p hp => hy p (List.mem_cons_of_mem _ hp))
            exact ⟨r, by simpa [pyTupleLt, heq] using hr⟩
          · exact ⟨decide (n < m), by simp [pyTupleLt, heq, pyPrimLt]⟩
        · simp [PyPrim.isInt] at hb
      · simp [PyPrim.isInt] at ha

theorem pyInsert_ok {α : Type} (lt : α → α → Except PyErr Bool) (P : α → Prop)
    (hlt : ∀ a b, P a → P b → ∃ r, lt a b = Except.ok r) (x : α) (acc : List α)
    (hx : P x) (hacc : ∀ y ∈ acc, P y) :
    ∃ r, pyInsert lt x acc = Except.ok r ∧ ∀ y ∈ r, P y := by
  induction acc with
  | nil => exact ⟨[x], rfl, by simpa using hx⟩
  | cons y ys ih =>
    obtain ⟨b, hb⟩ := hlt x y hx (hacc y (List.mem_cons_self y ys))
    obtain ⟨r, hr, hPr⟩ := ih (fun z hz => hacc z (List.mem_cons_of_mem _ hz))
    cases b with
    | true =>
      refine ⟨x :: y :: ys, ?_, ?_⟩
      · simp [pyInsert, hb]
        rfl
      · intro z hz
        rcases List.mem_cons.mp hz with rfl | hz
        · exact hx
        · exact hacc z hz
    | false =>
      refine ⟨y :: r, ?_, ?_⟩
      · simp [pyInsert, hb, hr]
      · intro z hz
        rcases List.mem_cons.mp hz with rfl | hz
        · exact hacc z (List.mem_cons_self z ys)
        · exact hPr z hz

theorem pySortAux_ok {α : Type} (lt : α → α → Except PyErr Bool) (P : α → Prop)
    (hlt : ∀ a b, P a → P b → ∃ r, lt a b = Except.ok r) (xs : List α) :
    ∀ acc, (∀ y ∈ acc, P y) → (∀ x ∈ xs, P x) →
      ∃ r, pySortAux lt acc xs = Except.ok r ∧ ∀ y ∈ r, P y := by
  induction xs with
  | nil => exact fun acc hacc _ => ⟨acc, rfl, hacc⟩
  | cons x xs ih =>
    intro acc hacc hxs
    obtain ⟨acc', hacc', hP'⟩ := pyInsert_ok lt P hlt x acc
      (hxs x (List.mem_cons_self x xs)) hacc
    obtain ⟨r, hr, hPr⟩ := ih acc' hP' (fun z hz => hxs z (List.mem_cons_of_mem _ hz))
    exact ⟨r, by simp [pySortAux, hacc', hr], hPr⟩


theorem pySort_ok {α : Type} (lt : α → α → Except PyErr Bool) (P : α → Prop)
    (hlt : ∀ a b, P a → P b → ∃ r, lt a b = Except.ok r) (l : List α)
    (hl : ∀ x ∈ l, P x) :
    ∃ r, pySort lt l = Except.ok r ∧ ∀ y ∈ r, P y :=
  pySortAux_ok lt P hlt l [] (by simp) hl

/-! ## Invariants of the chapter-branch map and the selection loop -/


theorem addOneBranch_inv (l : List Chapter) (c : Chapter) (hc : c ∈ l) (b : Branch)
    (hb : b ∈ chapterBranches c) (m : ChapterBranchMap) (hm : MapInv l m) :
    MapInv l (addOneBranch c m b) := by
  unfold addOneBranch
  by_cases hany : (m (chapterKey c)).any (fun p => p.1 == branchIdStr b) = true
  · simpa [hany] using hm
  · rw [if_neg hany]
    intro k p hp
    have hp' : p ∈ (if k = chapterKey c then
        m (chapterKey c) ++ [(branchIdStr b, (⟨c, b⟩ : Entry))] else m k) := hp
    by_cases hk : k = chapterKey c
    · rw [if_pos hk] at hp'
      rcases List.mem_append.mp hp' with hold | hnew
      · exact hm k p (hk ▸ hold)
      · have hpe : p = (branchIdStr b, (⟨c, b⟩ : Entry)) := List.mem_singleton.mp hnew
        subst hpe
        exact ⟨hc, hk.symm, List.ne_nil_of_mem hb, rfl, hb⟩
    · rw [if_neg hk] at hp'
      exact hm k p hp'

theorem foldl_addOneBranch_inv (l : List Chapter) (c : Chapter) (hc : c ∈ l) :
    ∀ (bs : List Branch), (∀ b ∈ bs, b ∈ chapterBranches c) →
      ∀ m, MapInv l m → MapInv l (bs.foldl (addOneBranch c) m) := by
  intro bs
  induction bs with
  | nil => exact fun _ m hm => hm
  | cons b bs ih =>
    intro hbs m hm
    exact ih (fun x hx => hbs x (List.mem_cons_of_mem _ hx))
      (addOneBranch c m b)
      (addOneBranch_inv l c hc b (hbs b (List.mem_cons_self b bs)) m hm)

theorem addChapterBranches_inv (l : List Chapter) (c : Chapter) (hc : c ∈ l)
    (m : ChapterBranchMap) (hm : MapInv l m) : MapInv l (addChapterBranches m c) :=
  foldl_addOneBranch_inv l c hc (chapterBranches c) (fun _ hb => hb) m hm

theorem foldl_addChapterBranches_inv (l : List Chapter) :
    ∀ (cs : List Chapter), (∀ c ∈ cs, c ∈ l) →
      ∀ m, MapInv l m → MapInv l (cs.foldl addChapterBranches m) := by
  intro cs
  induction cs with
  | nil => exact fun _ m hm => hm
  | cons c cs ih =>
    intro hcs m hm
    exact ih (fun x hx => hcs x (List.mem_cons_of_mem _ hx))
      (addChapterBranches m c)
      (addChapterBranches_inv l c (hcs c (List.mem_cons_self c cs)) m hm)

theorem buildChapterBranchMap_inv (l : List Chapter) : MapInv l (buildChapterBranchMap l) := by
  refine foldl_addChapterBranches_inv l l (fun _ h => h) _ ?_
  intro k p hp
  simp at hp

theorem selectLoopFuel_mem (m : ChapterBranchMap) :
    ∀ (fuel : Nat) (pending : List (String × String)) (e : Entry),
      e ∈ selectLoopFuel m fuel pending → ∃ k p, p ∈ m k ∧ p.2 = e := by
  intro fuel
  induction fuel with
  | zero =>
    intro pending e he
    simp [selectLoopFuel] at he
  | succ fuel ih =>
    intro pending e he
    cases hfind : pending.find? (fun k => !(m k).isEmpty) with
    | none => simp [selectLoopFuel, hfind] at he
    | some k =>
      cases hhead : (m k).head? with
      | none => simp [selectLoopFuel, hfind, hhead] at he
      | some pr =>
        obtain ⟨pid, e0⟩ := pr
        by_cases hpid : pid = ""
        · simp [selectLoopFuel, hfind, hhead, hpid] at he
        · simp only [selectLoopFuel, hfind, hhead] at he
          rw [if_neg hpid] at he
          rcases List.mem_append.mp he with hfm | hrec
          · obtain ⟨k2, _, hlk⟩ := List.mem_filterMap.mp hfm
            obtain ⟨q, hq, hq2⟩ := Option.map_eq_some'.mp hlk
            exact ⟨k2, q, List.mem_of_find?_eq_some hq, hq2⟩
          · exact ih _ e hrec


/-- **C4 (counterexample).** Two chapters whose `number` fields are `"1"`
and `"a"`: the stable re-sort by the parsed number key compares the int
tuple `(1,)` with the string tuple `("a",)` and raises `TypeError`, so
`get_default_branch_chapters` raises instead of completing. -/
theorem C4_counterexample :
    getDefaultBranchChapters
      [⟨some (PyPrim.str "1"), some (PyPrim.str "1"), some 0, some [Branch.prim (PyPrim.int 3)]⟩,
       ⟨some (PyPrim.str "1"), some (PyPrim.str "a"), some 1, some [Branch.prim (PyPrim.int 3)]⟩] =
      Except.error PyErr.typeError := by decide

/-- Each step of the formatting loop of `get_formatted_branches_with_teams`
completes: its only fallible operation is the `sorted` call on the
branch's team-name set, and string keys always compare. -/
theorem formatOneBranch_ok (bb : List (String × BranchInfo))
    (cc : List (String × Nat)) (tb : List (String × List String))
    (acc : List (String × FormattedBranch)) (bid : String) :
    ∃ r, formatOneBranch bb cc tb acc bid = Except.ok r := by
  unfold formatOneBranch
  by_cases h : (alGet? cc bid).getD 0 = 0
  · exact ⟨acc, by rw [if_pos h]; rfl⟩
  · obtain ⟨out, hout, _⟩ := pySort_ok pyStrLt (fun _ => True)
      (fun a b _ _ => ⟨decide (a < b), rfl⟩) ((alGet? tb bid).getD [])
      (fun _ _ => trivial)
    refine ⟨acc ++ [(bid, ⟨bid, formatBranchName ((alGet? bb bid).getD ⟨bid, [], []⟩),
      (alGet? cc bid).getD 0, out⟩)], ?_⟩
    rw [if_neg h]
    simp [hout]

/-- The whole formatting fold of `get_formatted_branches_with_teams`
completes, whatever the branch-id list. -/
theorem foldlM_formatOneBranch_ok (bb : List (String × BranchInfo))
    (cc : List (String × Nat)) (tb : List (String × List String)) :
    ∀ (ids : List String) (acc : List (String × FormattedBranch)),
      ∃ r, List.foldlM (formatOneBranch bb cc tb) acc ids = Except.ok r := by
  intro ids
  induction ids with
  | nil => exact fun acc => ⟨acc, rfl⟩
  | cons x xs ih =>
    intro acc
    obtain ⟨r1, hr1⟩ := formatOneBranch_ok bb cc tb acc x
    obtain ⟨r2, hr2⟩ := ih r1
    exact ⟨r2, by rw [List.foldlM_cons, hr1]; simpa using hr2⟩

/-- **C4 (amended).** The branch resolver completes without raising
whenever every chapter's `number` segments are integer-parsable (missing
fields only ever fall back to defaulted sentinels):
`get_default_branch_chapters` returns a value under that hypothesis, and
`get_formatted_branches_with_teams` returns a value for every novel info
and chapter list (its only fallible operation sorts homogeneous string
team names); chapter numbers mixing integer and non-integer segments can
instead make `get_default_branch_chapters` raise a comparison `TypeError`,
as the counterexample shows. -/
theorem C4_amended (ni : NovelInfo) (chapters : List Chapter)
    (h : ∀ c ∈ chapters, chapterAllIntSegments c = true) :
    (∃ out, getDefaultBranchChapters chapters = Except.ok out) ∧
    (∃ fb, getFormattedBranchesWithTeams ni chapters = Except.ok fb) := by
  refine ⟨?defaultOk, ?formattedOk⟩
  case formattedOk => exact foldlM_formatOneBranch_ok _ _ _ _ []
  have hltNum : ∀ a b : Chapter, chapterAllIntSegments a = true → chapterAllIntSegments b = true →
      ∃ r, chapterNumberLt a b = Except.ok r := by
    intro a b ha hb
    exact pyTupleLt_ok_of_int _ _
      (by simpa [chapterAllIntSegments, List.all_eq_true] using ha)
      (by simpa [chapterAllIntSegments, List.all_eq_true] using hb)
  obtain ⟨s1, hs1, hP1⟩ := pySort_ok chapterIndexLt (fun c => chapterAllIntSegments c = true)
    (fun a b _ _ => ⟨_, rfl⟩) chapters h
  obtain ⟨s2, hs2, hP2⟩ := pySort_ok chapterNumberLt (fun c => chapterAllIntSegments c = true)
    hltNum s1 hP1
  have hminv := buildChapterBranchMap_inv s2
  have hPe : ∀ e ∈ selectLoop (buildChapterBranchMap s2) (uniqueChapterKeys s2),
      chapterAllIntSegments e.chapter = true := by
    intro e he
    obtain ⟨k, q, hq, hq2⟩ := selectLoopFuel_mem (buildChapterBranchMap s2) _ _ e he
    have hmem := (hminv k q hq).1
    have : chapterAllIntSegments q.2.chapter = true := hP2 _ hmem
    rw [hq2] at this
    exact this
  obtain ⟨f1, hf1, hPf1⟩ := pySort_ok (fun a b : Entry => chapterIndexLt a.chapter b.chapter)
    (fun e : Entry => chapterAllIntSegments e.chapter = true) (fun a b _ _ => ⟨_, rfl⟩) _ hPe
  obtain ⟨f2, hf2, _⟩ := pySort_ok (fun a b : Entry => chapterNumberLt a.chapter b.chapter)
    (fun e : Entry => chapterAllIntSegments e.chapter = true)
    (fun a b ha hb => hltNum _ _ ha hb) f1 hPf1
  refine ⟨f2, ?_⟩
  simp [getDefaultBranchChapters, hs1, hs2, hf1, hf2]
  try rfl

/-- A concrete all-integer-segments instance: one chapter numbered "3.5"
and a novel info with one active team. -/
theorem C4_amended_witness :
    (∀ c ∈ [(⟨some (PyPrim.str "1"), some (PyPrim.str "3.5"), some 0,
        some [Branch.prim (PyPrim.int 5)]⟩ : Chapter)], chapterAllIntSegments c = true) ∧
    ((∃ out, getDefaultBranchChapters
      [(⟨some (PyPrim.str "1"), some (PyPrim.str "3.5"), some 0,
        some [Branch.prim (PyPrim.int 5)]⟩ : Chapter)] = Except.ok out) ∧
    (∃ fb, getFormattedBranchesWithTeams
      ⟨some [⟨some 4, some "Кактус", some ⟨some (PyPrim.int 5), some true⟩⟩]⟩
      [(⟨some (PyPrim.str "1"), some (PyPrim.str "3.5"), some 0,
        some [Branch.prim (PyPrim.int 5)]⟩ : Chapter)] = Except.ok fb)) :=
  ⟨by decide,
    C4_amended ⟨some [⟨some 4, some "Кактус", some ⟨some (PyPrim.int 5), some true⟩⟩]⟩
      _ (by decide)⟩

/-- **C8.** `get_default_branch_chapters` is deterministic: identical input
(same records, same branch ordering) gives identical output. In the
embedding the Python function denotes a pure function — its only internal
iteration orders (insertion-ordered dicts, the `seen`/`selected` sets used
solely for membership) are themselves determined by the input order. -/
theorem C8_deterministic (l1 l2 : List Chapter) (h : l1 = l2) :
    getDefaultBranchChapters l1 = getDefaultBranchChapters l2 := by rw [h]

theorem C8_deterministic_witness :
    ([(⟨some (PyPrim.str "1"), some (PyPrim.str "2"), some 0,
        some [Branch.prim (PyPrim.int 4)]⟩ : Chapter)] =
      [(⟨some (PyPrim.str "1"), some (PyPrim.str "2"), some 0,
        some [Branch.prim (PyPrim.int 4)]⟩ : Chapter)]) ∧
    getDefaultBranchChapters
      [(⟨some (PyPrim.str "1"), some (PyPrim.str "2"), some 0,
        some [Branch.prim (PyPrim.int 4)]⟩ : Chapter)] =
    getDefaultBranchChapters
      [(⟨some (PyPrim.str "1"), some (PyPrim.str "2"), some 0,
        some [Branch.prim (PyPrim.int 4)]⟩ : Chapter)] :=
  ⟨rfl, C8_deterministic _ _ rfl⟩

/-! ## Permutation facts about the monadic sort -/

@[simp] theorem errorBind {ε α β : Type} (e : ε) (f : α → Except ε β) :
    (Except.error e : Except ε α) >>= f = Except.error e := rfl

@[simp] theorem pureExcept {ε α : Type} (a : α) : (pure a : Except ε α) = Except.ok a := rfl

theorem pyInsert_perm {α : Type} (lt : α → α → Except PyErr Bool) (x : α) :
    ∀ (acc r : List α), pyInsert lt x acc = Except.ok r → r.Perm (x :: acc) := by
  intro acc
  induction acc with
  | nil =>
    intro r h
    simp [pyInsert] at h
    rw [← h]
  | cons y ys ih =>
    intro r h
    have h' : (lt x y >>= fun b =>
        if b then pure (x :: y :: ys)
        else (pyInsert lt x ys >>= fun r => pure (y :: r))) = Except.ok r := h
    cases hb : lt x y with
    | error e => rw [hb] at h'; simp at h'
    | ok b =>
      rw [hb] at h'
      simp only [okBind] at h'
      cases b with
      | true =>
        have hr : r = x :: y :: ys := by simpa using h'.symm
        subst hr
        exact List.Perm.refl _
      | false =>
        simp only [Bool.false_eq_true, if_false] at h'
        cases hr : pyInsert lt x ys with
        | error e => rw [hr] at h'; simp at h'
        | ok r' =>
          rw [hr] at h'
          simp only [okBind] at h'
          have hyr : y :: r' = r := by simpa using h'
          rw [← hyr]
          exact (List.Perm.cons y (ih r' hr)).trans (List.Perm.swap x y ys)

theorem pySortAux_perm {α : Type} (lt : α → α → Except PyErr Bool) :
    ∀ (xs acc r : List α), pySortAux lt acc xs = Except.ok r → r.Perm (acc ++ xs) := by
  intro xs
  induction xs with
  | nil =>
    intro acc r h
    have hr : r = acc := by simpa [pySortAux] using h.symm
    subst hr
    rw [List.append_nil]
  | cons x xs ih =>
    intro acc r h
    have h' : (pyInsert lt x acc >>= fun acc' => pySortAux lt acc' xs) = Except.ok r := h
    cases hins : pyInsert lt x acc with
    | error e => rw [hins] at h'; simp at h'
    | ok acc' =>
      rw [hins] at h'
      simp only [okBind] at h'
      have hperm := ih acc' r h'
      have hacc' := pyInsert_perm lt x acc acc' hins
      exact hperm.trans ((hacc'.append_right xs).trans List.perm_middle.symm)

theorem pySort_perm {α : Type} (lt : α → α → Except PyErr Bool) (l r : List α)
    (h : pySort lt l = Except.ok r) : r.Perm l := by
  simpa using pySortAux_perm lt l [] r h

/-! ## Unique keys, map non-emptiness, and the selection count -/

theorem filter_length_lt {α : Type} (p : α → Bool) (l : List α) (x : α) (hx : x ∈ l)
    (hpx : p x = false) : (l.filter p).length < l.length := by
  induction l with
  | nil => cases hx
  | cons a l ih =>
    rcases List.mem_cons.mp hx with rfl | hx'
    · rw [List.filter_cons, hpx]
      exact Nat.lt_succ_of_le (List.length_filter_le p l)
    · rw [List.filter_cons]
      cases hpa : p a with
      | true => simpa using Nat.succ_lt_succ (ih hx')
      | false => simpa using (ih hx').trans (Nat.lt_succ_self _)

theorem uniqueKeysAux_not_mem_seen :
    ∀ (l : List Chapter) (seen : List (String × String)) (k : String × String),
      k ∈ uniqueKeysAux seen l → k ∉ seen := by
  intro l
  induction l with
  | nil => intro seen k hk; simp [uniqueKeysAux] at hk
  | cons c cs ih =>
    intro seen k hk
    by_cases hs : chapterKey c ∈ seen
    · rw [uniqueKeysAux, if_pos hs] at hk
      exact ih seen k hk
    · rw [uniqueKeysAux, if_neg hs] at hk
      rcases List.mem_cons.mp hk with rfl | hk'
      · exact hs
      · intro hcon
        exact ih _ k hk' (List.mem_cons_of_mem _ hcon)

theorem uniqueKeysAux_nodup :
    ∀ (l : List Chapter) (seen : List (String × String)), (uniqueKeysAux seen l).Nodup := by
  intro l
  induction l with
  | nil => intro seen; simp [uniqueKeysAux]
  | cons c cs ih =>
    intro seen
    by_cases hs : chapterKey c ∈ seen
    · rw [uniqueKeysAux, if_pos hs]; exact ih seen
    · rw [uniqueKeysAux, if_neg hs]
      refine List.Nodup.cons ?_ (ih _)
      intro hmem
      exact uniqueKeysAux_not_mem_seen cs _ _ hmem (List.mem_cons_self _ _)

theorem uniqueKeysAux_mem :
    ∀ (l : List Chapter) (seen : List (String × String)) (k : String × String),
      k ∈ uniqueKeysAux seen l ↔ (∃ c ∈ l, chapterKey c = k) ∧ k ∉ seen := by
  intro l
  induction l with
  | nil => intro seen k; simp [uniqueKeysAux]
  | cons c cs ih =>
    intro seen k
    by_cases hs : chapterKey c ∈ seen
    · rw [uniqueKeysAux, if_pos hs, ih]
      constructor
      · rintro ⟨⟨c', hc', hk'⟩, hns⟩
        exact ⟨⟨c', List.mem_cons_of_mem _ hc', hk'⟩, hns⟩
      · rintro ⟨⟨c', hc', hk'⟩, hns⟩
        rcases List.mem_cons.mp hc' with rfl | hc''
        · exact absurd (hk' ▸ hs) hns
        · exact ⟨⟨c', hc'', hk'⟩, hns⟩
    · rw [uniqueKeysAux, if_neg hs]
      constructor
      · intro hk
        rcases List.mem_cons.mp hk with rfl | hk'
        · exact ⟨⟨c, List.mem_cons_self _ _, rfl⟩, hs⟩
        · obtain ⟨⟨c', hc', hkc⟩, hns⟩ := (ih _ k).mp hk'
          exact ⟨⟨c', List.mem_cons_of_mem _ hc', hkc⟩,
            fun hcon => hns (List.mem_cons_of_mem _ hcon)⟩
      · rintro ⟨⟨c', hc', hkc⟩, hns⟩
        rcases List.mem_cons.mp hc' with rfl | hc''
        · exact hkc ▸ List.mem_cons_self _ _
        · by_cases hkk : k = chapterKey c
          · exact hkk ▸ List.mem_cons_self _ _
          · refine List.mem_cons_of_mem _ ((ih _ k).mpr ⟨⟨c', hc'', hkc⟩, ?_⟩)
            intro hcon
            rcases List.mem_cons.mp hcon with h1 | h2
            · exact hkk h1
            · exact hns h2

theorem uniqueChapterKeys_nodup (l : List Chapter) : (uniqueChapterKeys l).Nodup :=
  uniqueKeysAux_nodup l []

theorem mem_uniqueChapterKeys (l : List Chapter) (k : String × String) :
    k ∈ uniqueChapterKeys l ↔ ∃ c ∈ l, chapterKey c = k := by
  rw [uniqueChapterKeys, uniqueKeysAux_mem]
  simp

theorem addOneBranch_ne_nil_mono (c : Chapter) (m : ChapterBranchMap) (b : Branch)
    (k : String × String) (h : m k ≠ []) : addOneBranch c m b k ≠ [] := by
  unfold addOneBranch
  by_cases hany : (m (chapterKey c)).any (fun p => p.1 == branchIdStr b) = true
  · simpa [hany] using h
  · rw [if_neg hany]
    by_cases hk : k = chapterKey c
    · show (if k = chapterKey c then _ else m k) ≠ []
      rw [if_pos hk]
      simp
    · show (if k = chapterKey c then _ else m k) ≠ []
      rw [if_neg hk]
      exact h

theorem foldl_addOneBranch_ne_nil_mono (c : Chapter) :
    ∀ (bs : List Branch) (m : ChapterBranchMap) (k : String × String),
      m k ≠ [] → (bs.foldl (addOneBranch c) m) k ≠ [] := by
  intro bs
  induction bs with
  | nil => exact fun m k h => h
  | cons b bs ih => exact fun m k h => ih _ k (addOneBranch_ne_nil_mono c m b k h)

theorem addOneBranch_key_ne_nil (c : Chapter) (m : ChapterBranchMap) (b : Branch) :
    addOneBranch c m b (chapterKey c) ≠ [] := by
  unfold addOneBranch
  by_cases hany : (m (chapterKey c)).any (fun p => p.1 == branchIdStr b) = true
  · rw [if_pos hany]
    obtain ⟨p, hp, _⟩ := List.any_eq_true.mp hany
    exact List.ne_nil_of_mem hp
  · rw [if_neg hany]
    show (if chapterKey c = chapterKey c then _ else _) ≠ []
    rw [if_pos rfl]
    simp

theorem addChapterBranches_key_ne_nil (c : Chapter) (m : ChapterBranchMap)
    (hb : chapterBranches c ≠ []) : (addChapterBranches m c) (chapterKey c) ≠ [] := by
  unfold addChapterBranches
  cases hbs : chapterBranches c with
  | nil => exact absurd hbs hb
  | cons b bs =>
    exact foldl_addOneBranch_ne_nil_mono c bs _ _ (addOneBranch_key_ne_nil c m b)

theorem addChapterBranches_ne_nil_mono (c : Chapter) (m : ChapterBranchMap)
    (k : String × String) (h : m k ≠ []) : (addChapterBranches m c) k ≠ [] :=
  foldl_addOneBranch_ne_nil_mono c (chapterBranches c) m k h

theorem foldl_addChapterBranches_ne_nil :
    ∀ (cs : List Chapter) (m : ChapterBranchMap) (k : String × String),
      ((∃ c ∈ cs, chapterKey c = k ∧ chapterBranches c ≠ []) ∨ m k ≠ []) →
      (cs.foldl addChapterBranches m) k ≠ [] := by
  intro cs
  induction cs with
  | nil =>
    intro m k h
    rcases h with ⟨c, hc, _⟩ | h
    · cases hc
    · exact h
  | cons c cs ih =>
    intro m k h
    rcases h with ⟨c', hc', hkey, hbr⟩ | h
    · rcases List.mem_cons.mp hc' with rfl | hc''
      · exact ih _ k (Or.inr (hkey ▸ addChapterBranches_key_ne_nil c' m hbr))
      · exact ih _ k (Or.inl ⟨c', hc'', hkey, hbr⟩)
    · exact ih _ k (Or.inr (addChapterBranches_ne_nil_mono c m k h))

theorem buildChapterBranchMap_ne_nil_iff (l : List Chapter) (k : String × String) :
    buildChapterBranchMap l k ≠ [] ↔ ∃ c ∈ l, chapterKey c = k ∧ chapterBranches c ≠ [] := by
  constructor
  · intro h
    obtain ⟨p, hp⟩ := List.exists_mem_of_ne_nil _ h
    obtain ⟨hmem, hkey, hbr, _, _⟩ := buildChapterBranchMap_inv l k p hp
    exact ⟨p.2.chapter, hmem, hkey, hbr⟩
  · intro h
    exact foldl_addChapterBranches_ne_nil l _ k (Or.inl h)


theorem entryKeyCount_append (l1 l2 : List Entry) (k : String × String) :
    entryKeyCount (l1 ++ l2) k = entryKeyCount l1 k + entryKeyCount l2 k :=
  List.countP_append _ _ _

theorem entryKeyCount_perm {l1 l2 : List Entry} (h : l1.Perm l2) (k : String × String) :
    entryKeyCount l1 k = entryKeyCount l2 k :=
  h.countP_eq _

theorem round_count (m : ChapterBranchMap) (pid : String)
    (hkey : ∀ k p, p ∈ m k → chapterKey p.2.chapter = k) :
    ∀ (pending : List (String × String)), pending.Nodup → ∀ k,
      entryKeyCount (pending.filterMap (fun k2 => lookupBranch (m k2) pid)) k =
        if k ∈ pending ∧ (lookupBranch (m k) pid).isSome = true then 1 else 0 := by
  intro pending
  induction pending with
  | nil => simp [entryKeyCount]
  | cons q qs ih =>
    intro hnd k
    have hnd' : qs.Nodup := hnd.of_cons
    have hqmem : q ∉ qs := (List.nodup_cons.mp hnd).1
    rw [List.filterMap_cons]
    cases hlq : lookupBranch (m q) pid with
    | none =>
      rw [ih hnd' k]
      by_cases hk : k = q
      · subst hk
        simp [hqmem, hlq]
      · simp [List.mem_cons, hk]
    | some e =>
      have he : chapterKey e.chapter = q := by
        unfold lookupBranch at hlq
        obtain ⟨p, hfind, hp2⟩ := Option.map_eq_some'.mp hlq
        have := hkey q p (List.mem_of_find?_eq_some hfind)
        rw [hp2] at this
        exact this
      rw [entryKeyCount, List.countP_cons, ← entryKeyCount, ih hnd' k]
      by_cases hk : k = q
      · subst hk
        simp [hqmem, he, hlq]
      · have hqk : ¬ q = k := fun hcon => hk hcon.symm
        have hdec : (decide (chapterKey e.chapter = k)) = false := by
          simp [he, hqk]
        rw [hdec]
        simp [List.mem_cons, hk]

theorem selectLoopFuel_count (m : ChapterBranchMap)
    (hkey : ∀ k p, p ∈ m k → chapterKey p.2.chapter = k)
    (hpid : ∀ k p, p ∈ m k → p.1 ≠ "") :
    ∀ (fuel : Nat) (pending : List (String × String)), pending.length ≤ fuel →
      pending.Nodup → ∀ k,
      entryKeyCount (selectLoopFuel m fuel pending) k =
        if k ∈ pending ∧ m k ≠ [] then 1 else 0 := by
  intro fuel
  induction fuel with
  | zero =>
    intro pending hlen hnd k
    have hp : pending = [] := List.length_eq_zero.mp (Nat.le_zero.mp hlen)
    subst hp
    simp [selectLoopFuel, entryKeyCount]
  | succ fuel ih =>
    intro pending hlen hnd k
    cases hfind : pending.find? (fun k => !(m k).isEmpty) with
    | none =>
      have hall : ∀ x ∈ pending, m x = [] := by
        intro x hx
        have hnx := List.find?_eq_none.mp hfind x hx
        simpa using hnx
      simp only [selectLoopFuel, hfind]
      by_cases hk : k ∈ pending
      · simp [entryKeyCount, hk, hall k hk]
      · simp [entryKeyCount, hk]
    | some k0 =>
      have hk0mem : k0 ∈ pending := List.mem_of_find?_eq_some hfind
      have hk0ne : m k0 ≠ [] := by
        have hs := List.find?_some hfind
        simpa using hs
      cases hhead : (m k0).head? with
      | none => exact absurd (List.head?_eq_none_iff.mp hhead) hk0ne
      | some pr =>
        obtain ⟨pid, e0⟩ := pr
        have hmem0 : (pid, e0) ∈ m k0 := List.mem_of_mem_head? hhead
        have hpidne : pid ≠ "" := hpid k0 (pid, e0) hmem0
        simp only [selectLoopFuel, hfind, hhead]
        rw [if_neg hpidne, entryKeyCount_append]
        have hk0some : (lookupBranch (m k0) pid).isSome = true := by
          unfold lookupBranch
          rw [Option.isSome_map']
          rw [List.find?_isSome]
          exact ⟨(pid, e0), hmem0, by simp⟩
        have hlenrest : (pending.filter
            (fun k2 => (lookupBranch (m k2) pid).isNone)).length ≤ fuel := by
          have hlt := filter_length_lt (fun k2 => (lookupBranch (m k2) pid).isNone) pending k0
            hk0mem (by simp [hk0some])
          omega
        rw [round_count m pid hkey pending hnd k,
          ih _ hlenrest (hnd.filter _) k]
        by_cases hksome : (lookupBranch (m k) pid).isSome = true
        · have hkne : m k ≠ [] := by
            unfold lookupBranch at hksome
            rw [Option.isSome_map', List.find?_isSome] at hksome
            obtain ⟨p, hp, _⟩ := hksome
            exact List.ne_nil_of_mem hp
          have hknotrest : k ∉ pending.filter (fun k2 => (lookupBranch (m k2) pid).isNone) := by
            intro hcon
            have h2 := (List.mem_filter.mp hcon).2
            simp only [Option.isNone_iff_eq_none] at h2
            rw [h2] at hksome
            simp at hksome
          by_cases hk : k ∈ pending
          · simp [hk, hksome, hkne, hknotrest]
          · simp [hk, hksome, fun hcon => hk (List.mem_filter.mp hcon).1]
        · have hknone : (lookupBranch (m k) pid).isNone = true := by
            cases hlk : lookupBranch (m k) pid
            · rfl
            · rw [hlk] at hksome; simp at hksome
          have hrestmem : (k ∈ pending.filter (fun k2 => (lookupBranch (m k2) pid).isNone))
              ↔ k ∈ pending := by
            rw [List.mem_filter]
            constructor
            · exact fun h => h.1
            · exact fun h => ⟨h, hknone⟩
          simp only [hrestmem]
          simp [hksome]

theorem getDefaultBranchChapters_inv (chapters : List Chapter) (out : List Entry)
    (hok : getDefaultBranchChapters chapters = Except.ok out) :
    ∃ s1 s2 f1,
      pySort chapterIndexLt chapters = Except.ok s1 ∧
      pySort chapterNumberLt s1 = Except.ok s2 ∧
      pySort (fun a b : Entry => chapterIndexLt a.chapter b.chapter)
        (selectLoop (buildChapterBranchMap s2) (uniqueChapterKeys s2)) = Except.ok f1 ∧
      pySort (fun a b : Entry => chapterNumberLt a.chapter b.chapter) f1 = Except.ok out := by
  unfold getDefaultBranchChapters at hok
  cases h1 : pySort chapterIndexLt chapters with
  | error e => rw [h1] at hok; simp at hok
  | ok s1 =>
    rw [h1] at hok
    simp only [okBind] at hok
    cases h2 : pySort chapterNumberLt s1 with
    | error e => rw [h2] at hok; simp at hok
    | ok s2 =>
      rw [h2] at hok
      simp only [okBind] at hok
      cases h3 : pySort (fun a b : Entry => chapterIndexLt a.chapter b.chapter)
          (selectLoop (buildChapterBranchMap s2) (uniqueChapterKeys s2)) with
      | error e => rw [h3] at hok; simp at hok
      | ok f1 =>
        rw [h3] at hok
        simp only [okBind] at hok
        cases h4 : pySort (fun a b : Entry => chapterNumberLt a.chapter b.chapter) f1 with
        | error e => rw [h4] at hok; simp at hok
        | ok f2 =>
          rw [h4] at hok
          simp only [okBind, pureExcept, Except.ok.injEq] at hok
          refine ⟨s1, s2, f1, rfl, h2, h3, ?_⟩
          rw [← hok]
          exact h4

/-- **C3 (amended).** Provided no branch's id string is empty (the Python
loop guard `if not ... or not prioritized_branch_id` treats an empty id
string as falsy and aborts selection early), a successful run of
`get_default_branch_chapters` returns exactly one entry for every distinct
`(volume, number)` key that has at least one branch, at most one entry per
key overall, and no entry whose chapter has an empty branch list. -/
theorem C3_amended (chapters : List Chapter) (out : List Entry)
    (hids : ∀ c ∈ chapters, ∀ b ∈ chapterBranches c, branchIdStr b ≠ "")
    (hok : getDefaultBranchChapters chapters = Except.ok out) :
    (∀ k, (∃ c ∈ chapters, chapterKey c = k ∧ chapterBranches c ≠ []) →
      entryKeyCount out k = 1) ∧
    (∀ k, entryKeyCount out k ≤ 1) ∧
    (∀ e ∈ out, chapterBranches e.chapter ≠ []) := by
  obtain ⟨s1, s2, f1, h1, h2, h3, h4⟩ := getDefaultBranchChapters_inv chapters out hok
  have hp1 := pySort_perm _ chapters s1 h1
  have hp2 := pySort_perm _ s1 s2 h2
  have hps2 : s2.Perm chapters := hp2.trans hp1
  have hminv := buildChapterBranchMap_inv s2
  have hkey : ∀ k p, p ∈ buildChapterBranchMap s2 k → chapterKey p.2.chapter = k :=
    fun k p hp => (hminv k p hp).2.1
  have hpidm : ∀ k p, p ∈ buildChapterBranchMap s2 k → p.1 ≠ "" := by
    intro k p hp
    obtain ⟨hmem, -, -, hid, hbr⟩ := hminv k p hp
    rw [hid]
    exact hids p.2.chapter (hps2.mem_iff.mp hmem) p.2.branch hbr
  have hcount := selectLoopFuel_count (buildChapterBranchMap s2) hkey hpidm
    (uniqueChapterKeys s2).length (uniqueChapterKeys s2) le_rfl (uniqueChapterKeys_nodup s2)
  have hpf1 := pySort_perm _ _ f1 h3
  have hpf2 := pySort_perm _ f1 out h4
  have hout : ∀ k, entryKeyCount out k =
      entryKeyCount (selectLoop (buildChapterBranchMap s2) (uniqueChapterKeys s2)) k :=
    fun k => entryKeyCount_perm (hpf2.trans hpf1) k
  refine ⟨?_, ?_, ?_⟩
  · rintro k ⟨c, hc, hck, hcb⟩
    have hcs2 : c ∈ s2 := hps2.mem_iff.mpr hc
    rw [hout k, selectLoop, hcount k, if_pos]
    exact ⟨(mem_uniqueChapterKeys s2 k).mpr ⟨c, hcs2, hck⟩,
      (buildChapterBranchMap_ne_nil_iff s2 k).mpr ⟨c, hcs2, hck, hcb⟩⟩
  · intro k
    rw [hout k, selectLoop, hcount k]
    split <;> omega
  · intro e he
    have he' : e ∈ selectLoop (buildChapterBranchMap s2) (uniqueChapterKeys s2) :=
      ((hpf2.trans hpf1).mem_iff).mp he
    obtain ⟨k, q, hq, hq2⟩ := selectLoopFuel_mem _ _ _ e he'
    have hbr := (hminv k q hq).2.2.1
    rw [hq2] at hbr
    exact hbr

/-- **C3 (counterexample).** One chapter whose sole branch has
`branch_id = ""`: its key has a branch, yet the returned selection is empty
(the empty prioritized id string is falsy and breaks the loop), so no key
receives an entry — refuting "exactly one entry per distinct key with at
least one branch". -/
theorem C3_counterexample :
    getDefaultBranchChapters
      [(⟨some (PyPrim.str "1"), some (PyPrim.str "1"), some 0,
        some [Branch.dict (some (PyPrim.str "")) Option.none Option.none Option.none]⟩ : Chapter)] = Except.ok [] ∧
    chapterBranches (⟨some (PyPrim.str "1"), some (PyPrim.str "1"), some 0,
      some [Branch.dict (some (PyPrim.str "")) Option.none Option.none Option.none]⟩ : Chapter) ≠ [] ∧
    entryKeyCount []
      (chapterKey (⟨some (PyPrim.str "1"), some (PyPrim.str "1"), some 0,
        some [Branch.dict (some (PyPrim.str "")) Option.none Option.none Option.none]⟩ : Chapter)) = 0 := by
  refine ⟨by decide, by decide, by decide⟩

theorem C3_amended_witness :
    (∀ c ∈ [(⟨some (PyPrim.str "1"), some (PyPrim.str "1"), some 0,
        some [Branch.dict (some (PyPrim.str "7")) Option.none Option.none Option.none]⟩ : Chapter)],
      ∀ b ∈ chapterBranches c, branchIdStr b ≠ "") ∧
    getDefaultBranchChapters
      [(⟨some (PyPrim.str "1"), some (PyPrim.str "1"), some 0,
        some [Branch.dict (some (PyPrim.str "7")) Option.none Option.none Option.none]⟩ : Chapter)] =
      Except.ok [⟨⟨some (PyPrim.str "1"), some (PyPrim.str "1"), some 0,
        some [Branch.dict (some (PyPrim.str "7")) Option.none Option.none Option.none]⟩,
        Branch.dict (some (PyPrim.str "7")) Option.none Option.none Option.none⟩] ∧
    (∀ k, (∃ c ∈ [(⟨some (PyPrim.str "1"), some (PyPrim.str "1"), some 0,
          some [Branch.dict (some (PyPrim.str "7")) Option.none Option.none Option.none]⟩ : Chapter)],
        chapterKey c = k ∧ chapterBranches c ≠ []) →
      entryKeyCount [⟨⟨some (PyPrim.str "1"), some (PyPrim.str "1"), some 0,
        some [Branch.dict (some (PyPrim.str "7")) Option.none Option.none Option.none]⟩,
        Branch.dict (some (PyPrim.str "7")) Option.none Option.none Option.none⟩] k = 1) :=
  ⟨by decide, by decide,
    (C3_amended _ _ (by decide) (by decide)).1⟩

/-! ## Clock-shift equivariance of the rate limiter -/


